import Mathlib

/-!
Verification of the AI meeting-insights processing pipeline
(backend/app/ai_processing.py) against its specification.

The Python source is shallowly embedded: pure computations become Lean
functions over List Char / String / Nat, exceptions become Except values,
and the external collaborators (whisper, the Ollama language-model and
embedding endpoints, ChromaDB, the SQL database) are modelled as explicit
environment parameters describing the outcome of each external call, since
the repository treats them as opaque services behind narrow interfaces.
Python strings are modelled at the character-list level; regex and
character classification use the ASCII reading (the repository only ever
feeds ASCII configuration constants and transcripts through these paths,
and Python and Lean agree on ASCII).
-/

namespace MeetingInsights

/-! ## Word splitting (Python str.split with no argument)

Used by VectorStoreService._chunk_text (line 192: words = text.split()).
Python str.split() splits on runs of whitespace and never yields empty
words. -/

/-- Accumulator-based scanner for Python str.split(): cur holds the
current word reversed; whitespace closes the current word, anything else
extends it. -/
def wordsAux : List Char → List Char → List (List Char)
  | cur, [] => if cur.isEmpty then [] else [cur.reverse]
  | cur, c :: cs =>
    if c.isWhitespace then
      if cur.isEmpty then wordsAux [] cs else cur.reverse :: wordsAux [] cs
    else wordsAux (c :: cur) cs

/-- Python text.split(): the whitespace-separated words of a character
list, in order, with no empty words. -/
def pyWords (s : List Char) : List (List Char) := wordsAux [] s

/-! ## Whole-word keyword counting (InsightExtractor._calculate_keyword_frequency)

Embeds line 130:
  count = len(re.findall(r'\b' + re.escape(keyword.lower()) + r'\b', transcript_lower))
re.escape makes the keyword a literal, so a match is an occurrence of the
literal keyword bracketed by regex word boundaries, and re.findall counts
leftmost non-overlapping matches. -/

/-- Word characters for the regex word boundary \b (letters, digits,
underscore; ASCII reading of Python re). -/
def isWordChar (c : Char) : Bool := c.isAlpha || c.isDigit || c == '_'

/-- Whether position i of t holds a word character; positions outside the
string count as non-word, as at the virtual edges of a Python string. -/
def wordAt (t : List Char) (i : Nat) : Bool :=
  match t[i]? with
  | some c => isWordChar c
  | none => false

/-- Regex word boundary \b at gap position i of t: exactly one of the two
adjacent positions holds a word character. -/
def boundaryAt (t : List Char) (i : Nat) : Bool :=
  (if i = 0 then false else wordAt t (i - 1)) != wordAt t i

/-- Whether the literal pattern kw, bracketed by word boundaries, matches
t at position i. -/
def matchAt (t kw : List Char) (i : Nat) : Bool :=
  List.isPrefixOf kw (t.drop i) && boundaryAt t i && boundaryAt t (i + kw.length)

/-- Fuel-indexed scan implementing re.findall counting: leftmost
non-overlapping matches, continuing after the end of each match (one
position further for an empty pattern, as re does for zero-width
matches). -/
def countAux (t kw : List Char) : Nat → Nat → Nat
  | 0, _ => 0
  | fuel + 1, i =>
    if matchAt t kw i then countAux t kw fuel (i + max kw.length 1) + 1
    else if i < t.length then countAux t kw fuel (i + 1)
    else 0

/-- Case-insensitive whole-word occurrence count of keyword in transcript:
len(re.findall(...)) at line 130, with both sides lowercased as at lines
126 and 130. -/
def countKeyword (keyword transcript : String) : Nat :=
  let t := transcript.data.map Char.toLower
  countAux t (keyword.data.map Char.toLower) (t.length + 1) 0

/-! ## Stable descending sort (Python list.sort(key=count, reverse=True))

Line 135 sorts the frequency list with the documented stable Python sort,
descending by count, equal counts keeping their input order. A stable
insertion sort by count descending has exactly that behaviour. -/

/-- Insert x into a count-descending list, after every element with a
strictly larger count and before every element with a smaller or equal
count, so that earlier input elements stay ahead of equal-count later
ones. -/
def insertDesc (x : String × Nat) : List (String × Nat) → List (String × Nat)
  | [] => [x]
  | y :: ys => if y.2 ≤ x.2 then x :: y :: ys else y :: insertDesc x ys

/-- Stable sort by count descending: the model of
frequencies.sort(key=lambda x: x['count'], reverse=True) at line 135. -/
def sortDesc : List (String × Nat) → List (String × Nat)
  | [] => []
  | x :: xs => insertDesc x (sortDesc xs)

/-- The list frequencies built by the loop of lines 125-132: each keyword
paired with its whole-word count in the transcript, keeping only keywords
found at least once, in keyword input order. -/
def foundKeywords (keywords : List String) (transcript : String) : List (String × Nat) :=
  (keywords.map (fun keyword => (keyword, countKeyword keyword transcript))).filter
    (fun f => 0 < f.2)

/-- InsightExtractor._calculate_keyword_frequency (lines 123-136): count
each keyword, drop zero counts, sort by count descending (stable), keep
the first 7. -/
def calculate_keyword_frequency (keywords : List String) (transcript : String) :
    List (String × Nat) :=
  let frequencies := foundKeywords keywords transcript
  (sortDesc frequencies).take 7

theorem insertDesc_perm (x : String × Nat) (l : List (String × Nat)) :
    (insertDesc x l).Perm (x :: l) := by
  induction l with
  | nil => simp [insertDesc]
  | cons y ys ih =>
    by_cases h : y.2 ≤ x.2
    · simp [insertDesc, h]
    · simp only [insertDesc, if_neg h]
      exact (ih.cons y).trans (List.Perm.swap x y ys)

theorem sortDesc_perm (l : List (String × Nat)) : (sortDesc l).Perm l := by
  induction l with
  | nil => simp [sortDesc]
  | cons x xs ih => exact (insertDesc_perm x (sortDesc xs)).trans (ih.cons x)

theorem insertDesc_pairwise (x : String × Nat) (l : List (String × Nat))
    (h : List.Pairwise (fun a b => b.2 ≤ a.2) l) :
    List.Pairwise (fun a b => b.2 ≤ a.2) (insertDesc x l) := by
  induction l with
  | nil => simp [insertDesc]
  | cons y ys ih =>
    rcases List.pairwise_cons.mp h with ⟨hy, hys⟩
    by_cases hc : y.2 ≤ x.2
    · simp only [insertDesc, if_pos hc]
      refine List.pairwise_cons.mpr ⟨?_, h⟩
      intro z hz
      rcases List.mem_cons.mp hz with rfl | hz
      · exact hc
      · exact le_trans (hy z hz) hc
    · simp only [insertDesc, if_neg hc]
      refine List.pairwise_cons.mpr ⟨?_, ih hys⟩
      intro z hz
      have hz' := (insertDesc_perm x ys).mem_iff.mp hz
      rcases List.mem_cons.mp hz' with rfl | hz'
      · exact le_of_lt (lt_of_not_le hc)
      · exact hy z hz'

theorem sortDesc_pairwise (l : List (String × Nat)) :
    List.Pairwise (fun a b => b.2 ≤ a.2) (sortDesc l) := by
  induction l with
  | nil => simp [sortDesc]
  | cons x xs ih => exact insertDesc_pairwise x (sortDesc xs) ih

theorem insertDesc_filter_count (x : String × Nat) (l : List (String × Nat)) (c : Nat)
    (h : List.Pairwise (fun a b => b.2 ≤ a.2) l) :
    (insertDesc x l).filter (fun e => e.2 = c) =
      if x.2 = c then x :: l.filter (fun e => e.2 = c)
      else l.filter (fun e => e.2 = c) := by
  induction l with
  | nil =>
    by_cases hx : x.2 = c <;> simp [insertDesc, hx]
  | cons y ys ih =>
    rcases List.pairwise_cons.mp h with ⟨_, hys⟩
    by_cases hc : y.2 ≤ x.2
    · simp only [insertDesc, if_pos hc]
      by_cases hx : x.2 = c <;> simp [List.filter_cons, hx]
    · have hlt : x.2 < y.2 := lt_of_not_le hc
      simp only [insertDesc, if_neg hc]
      by_cases hx : x.2 = c
      · have hy : ¬ y.2 = c := by omega
        simp [List.filter_cons, hy, ih hys, hx]
      · simp [List.filter_cons, ih hys, hx]

theorem sortDesc_filter_count (l : List (String × Nat)) (c : Nat) :
    (sortDesc l).filter (fun e => e.2 = c) = l.filter (fun e => e.2 = c) := by
  induction l with
  | nil => simp [sortDesc]
  | cons x xs ih =>
    rw [sortDesc, insertDesc_filter_count x (sortDesc xs) c (sortDesc_pairwise xs), ih]
    by_cases hx : x.2 = c <;> simp [List.filter_cons, hx]

/-- C1: for every keyword list K and transcript T the post-processing
result has at most 7 entries, is sorted by count non-increasing, contains
only keywords of K paired with their case-insensitive whole-word count in
T with count at least 1, returns exactly the found keywords whenever at
most 7 are found, keeps equal-count keywords in input order (stability),
and the whole-word counting gives 1 for keyword art against transcript
start the art project (no substring match inside start). -/
theorem keyword_postprocessing_correct (K : List String) (T : String) :
    (calculate_keyword_frequency K T).length ≤ 7 ∧
    List.Pairwise (fun a b => b.2 ≤ a.2) (calculate_keyword_frequency K T) ∧
    (∀ e, e ∈ calculate_keyword_frequency K T →
      e.1 ∈ K ∧ e.2 = countKeyword e.1 T ∧ 1 ≤ e.2) ∧
    ((foundKeywords K T).length ≤ 7 →
      (calculate_keyword_frequency K T).Perm (foundKeywords K T)) ∧
    (∀ c, List.Sublist
      ((calculate_keyword_frequency K T).filter (fun e => e.2 = c))
      ((foundKeywords K T).filter (fun e => e.2 = c))) ∧
    countKeyword "art" "start the art project" = 1 := by
  have hmem : ∀ e, e ∈ calculate_keyword_frequency K T → e ∈ foundKeywords K T := by
    intro e he
    have h1 : e ∈ sortDesc (foundKeywords K T) :=
      (List.take_sublist 7 _).mem he
    exact (sortDesc_perm (foundKeywords K T)).mem_iff.mp h1
  refine ⟨?_, ?_, ?_, ?_, ?_, ?_⟩
  · simp only [calculate_keyword_frequency, List.length_take]
    exact min_le_left _ _
  · exact List.Pairwise.sublist (List.take_sublist 7 _) (sortDesc_pairwise _)
  · intro e he
    have hF := hmem e he
    rcases List.mem_filter.mp hF with ⟨hm, hpos⟩
    rcases List.mem_map.mp hm with ⟨kw, hkw, rfl⟩
    refine ⟨hkw, rfl, ?_⟩
    simpa using hpos
  · intro hlen
    have hlen' : (sortDesc (foundKeywords K T)).length ≤ 7 := by
      rw [(sortDesc_perm (foundKeywords K T)).length_eq]
      exact hlen
    rw [calculate_keyword_frequency, List.take_of_length_le hlen']
    exact sortDesc_perm _
  · intro c
    have h1 : List.Sublist
        ((calculate_keyword_frequency K T).filter (fun e => e.2 = c))
        ((sortDesc (foundKeywords K T)).filter (fun e => e.2 = c)) :=
      (List.take_sublist 7 _).filter _
    rwa [sortDesc_filter_count] at h1
  · decide

/-- Witness for C1 at a concrete input: three keywords against the
transcript start the art project, all hypotheses discharged. -/
theorem keyword_postprocessing_correct_witness :
    (calculate_keyword_frequency ["art", "project", "zzz"] "start the art project").Perm
      (foundKeywords ["art", "project", "zzz"] "start the art project") ∧
    countKeyword "art" "start the art project" = 1 :=
  ⟨(keyword_postprocessing_correct ["art", "project", "zzz"] "start the art project").2.2.2.1
      (by decide),
    (keyword_postprocessing_correct ["art", "project", "zzz"] "start the art project").2.2.2.2.2⟩

/-! ## Transcript chunking (VectorStoreService._chunk_text, lines 191-194)

Source:
  words = text.split()
  if not words: return []
  return [" ".join(words[i:i + chunk_size]) for i in range(0, len(words), chunk_size - overlap)]
-/

/-- Python range(0, stop, step) for positive step. -/
def pyRange (stop step : Nat) : List Nat :=
  (List.range ((stop + step - 1) / step)).map (fun k => step * k)

/-- The single-space join " ".join(words) at the character level. -/
def joinWords : List (List Char) → List Char
  | [] => []
  | [w] => w
  | w :: x :: ws => w ++ ' ' :: joinWords (x :: ws)

/-- VectorStoreService._chunk_text. The source declares default arguments
chunk_size=300 and overlap=50; every caller uses the defaults, so call
sites below pass 300 and 50 explicitly. -/
def chunk_text (text : String) (chunk_size overlap : Nat) : List String :=
  let words := pyWords text.data
  if words.isEmpty then []
  else (pyRange words.length (chunk_size - overlap)).map
    (fun i => String.mk (joinWords ((words.drop i).take chunk_size)))

theorem wordsAux_word (w : List Char) (hw : ∀ c ∈ w, c.isWhitespace = false) :
    ∀ cur rest, wordsAux cur (w ++ rest) = wordsAux (w.reverse ++ cur) rest := by
  induction w with
  | nil => intro cur rest; simp
  | cons c cs ih =>
    intro cur rest
    have hc : c.isWhitespace = false := hw c (by simp)
    simp only [List.cons_append, wordsAux, hc, Bool.false_eq_true, if_false, List.append_eq]
    rw [ih (fun d hd => hw d (by simp [hd])) (c :: cur) rest]
    congr 1
    simp

/-- Round trip: splitting the single-space join of nonempty
whitespace-free words recovers exactly those words. -/
theorem pyWords_join (ws : List (List Char))
    (h : ∀ w ∈ ws, w ≠ [] ∧ ∀ c ∈ w, c.isWhitespace = false) :
    pyWords (joinWords ws) = ws := by
  induction ws with
  | nil => rfl
  | cons w rest ih =>
    rcases h w (by simp) with ⟨hne, hnw⟩
    have hrev : w.reverse.isEmpty = false := by
      simp [List.isEmpty_iff, hne]
    cases rest with
    | nil =>
      show wordsAux [] (joinWords [w]) = [w]
      have : joinWords [w] = w ++ [] := by simp [joinWords]
      rw [this, wordsAux_word w hnw [] []]
      simp [wordsAux, hrev, List.isEmpty_iff]
    | cons x rest' =>
      show wordsAux [] (joinWords (w :: x :: rest')) = w :: x :: rest'
      have : joinWords (w :: x :: rest') = w ++ ' ' :: joinWords (x :: rest') := by
        simp [joinWords]
      rw [this, wordsAux_word w hnw [] (' ' :: joinWords (x :: rest'))]
      have hsp : (' ' : Char).isWhitespace = true := by decide
      simp only [wordsAux, hsp, if_true, List.append_nil, hrev, Bool.false_eq_true, if_false]
      rw [List.reverse_reverse]
      exact congrArg (w :: ·) (ih (fun v hv => h v (by simp [hv])))

/-- The word-index slice underlying chunk number i: words[250*i : 250*i + 300]. -/
def sliceAt (ws : List (List Char)) (i : Nat) : List (List Char) :=
  (ws.drop (250 * i)).take 300

/-- Number of chunks the code produces for n words: ceil(n / 250). -/
def chunkCount (n : Nat) : Nat := (n + 249) / 250

/-- C4 (amended): for a non-empty transcript the chunker emits, for every
i below ceil(words(T) / 250), the join of words[250*i : 250*i + 300], so
each chunk starts 250 words after the previous and has at most 300 words,
every word index lies in some chunk range, the 250-word-offset tail of a
chunk is exactly the 50-word prefix of the next, and that shared part has
exactly 50 words for every consecutive pair not involving the last chunk.
The number of chunks is ceil(words(T) / 250), not
ceil((words(T) - 50) / 250) as claimed. -/
theorem chunker_amended (T : String) (h : pyWords T.data ≠ []) :
    chunk_text T 300 50
      = (List.range (chunkCount (pyWords T.data).length)).map
          (fun i => String.mk (joinWords (sliceAt (pyWords T.data) i))) ∧
    (∀ i, (sliceAt (pyWords T.data) i).length ≤ 300) ∧
    (∀ j, j < (pyWords T.data).length →
      ∃ i, i < chunkCount (pyWords T.data).length ∧ 250 * i ≤ j ∧ j < 250 * i + 300) ∧
    (∀ i, (sliceAt (pyWords T.data) i).drop 250 = (sliceAt (pyWords T.data) (i + 1)).take 50) ∧
    (∀ i, i + 2 < chunkCount (pyWords T.data).length →
      ((sliceAt (pyWords T.data) (i + 1)).take 50).length = 50) := by
  have hne : (pyWords T.data).isEmpty = false := by
    simp [List.isEmpty_iff, h]
  refine ⟨?_, ?_, ?_, ?_, ?_⟩
  · simp only [chunk_text, hne, Bool.false_eq_true, if_false, pyRange, List.map_map]
    have h250 : (300 : Nat) - 50 = 250 := by norm_num
    rw [h250]
    have hc : ((pyWords T.data).length + 250 - 1) / 250 = chunkCount (pyWords T.data).length := by
      unfold chunkCount
      omega
    rw [hc]
    rfl
  · intro i
    simp only [sliceAt, List.length_take]
    exact min_le_left _ _
  · intro j hj
    refine ⟨j / 250, ?_, ?_, ?_⟩
    · unfold chunkCount
      omega
    · omega
    · omega
  · intro i
    simp only [sliceAt, List.drop_take, List.drop_drop, List.take_take]
    have h1 : (300 : Nat) - 250 = 50 := by norm_num
    have h2 : min 50 300 = 50 := by norm_num
    have h3 : 250 * i + 250 = 250 * (i + 1) := by ring
    rw [h1, h2, h3]
  · intro i hik
    have hk := hik
    unfold chunkCount at hk
    simp only [sliceAt, List.length_take, List.length_drop]
    omega

/-- Witness for C4 (amended) at a concrete two-word transcript. -/
theorem chunker_amended_witness :
    chunk_text "a b" 300 50
      = (List.range (chunkCount (pyWords "a b".data).length)).map
          (fun i => String.mk (joinWords (sliceAt (pyWords "a b".data) i))) :=
  (chunker_amended "a b" (by decide)).1

/-- A transcript of exactly 300 one-letter words. -/
def T300 : String := String.mk (joinWords (List.replicate 300 ['a']))

theorem pyWords_T300 : pyWords T300.data = List.replicate 300 ['a'] := by
  show pyWords (joinWords (List.replicate 300 ['a'])) = List.replicate 300 ['a']
  refine pyWords_join _ ?_
  intro w hw
  rw [List.eq_of_mem_replicate hw]
  refine ⟨by simp, ?_⟩
  intro c hc
  rcases List.mem_singleton.mp hc with rfl
  decide

set_option maxRecDepth 4000 in
/-- C4 counterexample: a 300-word transcript produces 2 chunks (the code
iterates range(0, 300, 250) = [0, 250]), while the claimed formula
ceil((300 - 50) / 250) gives 1. -/
theorem chunk_count_formula_counterexample :
    (pyWords T300.data).length = 300 ∧
    (chunk_text T300 300 50).length = 2 ∧
    (((300 : Nat) - 50) + 250 - 1) / 250 = 1 := by
  have hw : pyWords T300.data = List.replicate 300 ['a'] := pyWords_T300
  refine ⟨by rw [hw]; simp, ?_, by norm_num⟩
  have hne : (pyWords T300.data).isEmpty = false := by
    rw [hw]
    simp
  simp only [chunk_text, hne, Bool.false_eq_true, if_false, pyRange, List.map_map,
    List.length_map, List.length_range, hw, List.length_replicate]
  norm_num

/-! ## JSON values and InsightExtractor.extract (lines 138-168)

The language-model endpoint, the HTTP client and json.loads are external
(spec section 1 non-goals), so the streamed call is modelled by its
outcome: either a failure the code catches, a failure it does not catch,
or the parsed JSON value of the assembled response text. Everything the
code itself does with that outcome is embedded. -/

/-- Exceptions relevant to the embedded code. The except clause of
extract (line 166) catches only httpx.RequestError, json.JSONDecodeError
and KeyError; TypeError, AttributeError and IndexError propagate.
httpStatusError is httpx.HTTPStatusError, the exception of
response.raise_for_status(): it is a sibling of httpx.RequestError (both
subclass httpx.HTTPError), so no except tuple in this file catches it.
jsonDecodeError appears as a raised value only where json.JSONDecodeError
propagates uncaught (the response.json() call inside _get_embedding,
whose line-187 except tuple lists only RequestError and KeyError). -/
inductive PyErr where
  | typeError
  | attributeError
  | indexError
  | keyError
  | httpStatusError
  | jsonDecodeError
deriving DecidableEq

/-- JSON values as produced by json.loads. Numbers are carried as
integers: no code path under verification inspects a numeric payload. -/
inductive JValue where
  | null
  | bool (b : Bool)
  | num (n : Int)
  | str (s : String)
  | arr (elems : List JValue)
  | obj (fields : List (String × JValue))

/-- Whether a JSON value is a list (Python isinstance(x, list)). -/
def JValue.isArr : JValue → Bool
  | .arr _ => true
  | _ => false

/-- Substring test for Python str membership. -/
def containsSub (needle hay : List Char) : Bool :=
  (List.range (hay.length + 1)).any (fun i => List.isPrefixOf needle (hay.drop i))

/-- Python membership test key in value, as evaluated at line 160: dict
key membership, list element membership (string equality against each
element, false for non-strings), substring membership for strings; int,
float, bool and None are not containers, so the test raises TypeError. -/
def pyContains (v : JValue) (key : String) : Except PyErr Bool :=
  match v with
  | .obj fields => .ok (fields.any (fun f => f.1 == key))
  | .arr elems => .ok (elems.any (fun e => match e with | .str s => s == key | _ => false))
  | .str s => .ok (containsSub key.data s.data)
  | _ => .error .typeError

/-- Python subscript value[key] with a string key: dict lookup (missing
key raises KeyError; json.loads keeps the last duplicate, hence getLast),
list and string subscripts with a string index raise TypeError. -/
def pySubscript (v : JValue) (key : String) : Except PyErr JValue :=
  match v with
  | .obj fields =>
    match (fields.filter (fun f => f.1 == key)).getLast? with
    | some f => .ok f.2
    | none => .error .keyError
  | _ => .error .typeError

/-- The sentinel insights dict returned by the except clause at
line 168. -/
def errorInsights : JValue :=
  .obj [("summary", .str "Error extracting insights."),
        ("action_items", .arr []),
        ("decisions", .arr []),
        ("keywords", .arr []),
        ("sentiment", .str "Unknown")]

/-- Keyword strings of the parsed keywords list; none when some element
is not a string, in which case keyword.lower() at line 130 raises
AttributeError. -/
def keywordStrings : List JValue → Option (List String)
  | [] => some []
  | .str s :: rest => (keywordStrings rest).map (fun t => s :: t)
  | _ :: _ => none

/-- The frequency list rendered back to JSON, as assigned to
insights["keywords"] at line 162. -/
def freqJson (l : List (String × Nat)) : JValue :=
  .arr (l.map (fun f => .obj [("keyword", .str f.1), ("count", .num (f.2 : Int))]))

/-- Assignment fields["keywords"] = new on a dict whose key is present:
the slot keeps its position and receives the new value. -/
def setKeywords (fields : List (String × JValue)) (new : JValue) : List (String × JValue) :=
  fields.map (fun f => if f.1 == "keywords" then (f.1, new) else f)

/-- Lines 160-164 of the try block, applied to the parsed insights value:
the membership test, the isinstance(..., list) test, and the keyword
frequency replacement; otherwise the value is returned as parsed. -/
def annotateInsights (v : JValue) (transcript : String) : Except PyErr JValue := do
  let contains ← pyContains v "keywords"
  if contains then
    let kv ← pySubscript v "keywords"
    match kv with
    | .arr elems =>
      match keywordStrings elems with
      | some kws =>
        match v with
        | .obj fields =>
          pure (.obj (setKeywords fields (freqJson (calculate_keyword_frequency kws transcript))))
        | _ => .error .typeError
      | none => .error .attributeError
    | _ => pure v
  else
    pure v

/-- Outcomes of the streamed language-model call consumed by extract.
Constructors name the failure point in lines 145-158; value v is the
successful case where the assembled text parses to v. -/
inductive LLMResponse where
  | requestError
  | lineDecodeError
  | lineTypeError
  | finalDecodeError
  | value (v : JValue)

/-- InsightExtractor.extract (lines 138-168): requestError (network
failure anywhere in the request or stream), lineDecodeError (a streamed
line fails json.loads, line 153) and finalDecodeError (the assembled
text fails json.loads, line 158) are caught by the except clause and
yield the sentinel; a streamed line that decodes to a non-dict, or whose
response value is not a string, makes chunk.get or the concatenation at
line 155 raise an uncaught TypeError or AttributeError; a parsed value
goes through the keyword annotation, whose KeyError (in the except
clause) would also yield the sentinel while TypeError and AttributeError
propagate. -/
def extract (resp : LLMResponse) (transcript : String) : Except PyErr JValue :=
  match resp with
  | .requestError => .ok errorInsights
  | .lineDecodeError => .ok errorInsights
  | .lineTypeError => .error .typeError
  | .finalDecodeError => .ok errorInsights
  | .value v =>
    match annotateInsights v transcript with
    | .ok r => .ok r
    | .error .keyError => .ok errorInsights
    | .error e => .error e

/-! ## VectorStoreService (lines 172-265)

The embedding endpoint and ChromaDB are external. The per-text outcome of
_get_embedding (lines 180-189: the embedding list, or None after a caught
httpx.RequestError or KeyError) is an environment function; the
collection is the list of records written through collection.add. -/

/-- A stored vector-index entry: collection.add (line 207) is called with
aligned ids, documents, embeddings and metadatas, and the only metadata
written is the owning meeting_id (line 205). -/
structure VRecord where
  id : String
  document : String
  embedding : List Int
  meeting_id : Int
deriving DecidableEq

/-- The comprehension of line 203:
  [chunk for i, chunk in enumerate(chunks) if embeddings[i] is not None]
evaluated against the already filtered embeddings list: each index i is
subscripted into embeddings, raising IndexError when out of range, and a
present element is an actual embedding (never None), so the test keeps
the chunk. -/
def validChunks (embeddings : List (List Int)) : List (Nat × String) → Except PyErr (List String)
  | [] => .ok []
  | (i, chunk) :: rest =>
    match embeddings[i]? with
    | none => .error .indexError
    | some _ =>
      match validChunks embeddings rest with
      | .ok tail => .ok (chunk :: tail)
      | .error e => .error e

/-- Positional alignment of ids, documents, embeddings and metadatas done
by collection.add at line 207. -/
def buildRecords : List String → List String → List (List Int) → List Int → List VRecord
  | i :: is, d :: ds, e :: es, m :: ms =>
    { id := i, document := d, embedding := e, meeting_id := m } :: buildRecords is ds es ms
  | _, _, _, _ => []

/-- VectorStoreService.add_transcript (lines 196-207). The source
evaluates _get_embedding(chunk) twice inside one comprehension
(line 200), so the per-text outcome function embed is the faithful
deterministic reading. A successful call appends the added records to the
store. -/
def add_transcript (embed : String → Option (List Int)) (store : List VRecord)
    (meeting_id : Int) (transcript : String) : Except PyErr (List VRecord) :=
  let chunks := chunk_text transcript 300 50
  if chunks.isEmpty then .ok store
  else
    let embeddings := chunks.filterMap embed
    if embeddings.isEmpty then .ok store
    else
      match validChunks embeddings chunks.enum with
      | .error e => .error e
      | .ok valid_chunks =>
        let doc_ids := (List.range valid_chunks.length).map
          (fun i => toString meeting_id ++ "_" ++ toString i)
        let metadata := valid_chunks.map (fun _ => meeting_id)
        .ok (store ++ buildRecords doc_ids valid_chunks embeddings metadata)

/-- External calls a search can make, in order. -/
inductive Effect where
  | embedCall
  | indexQuery
  | llmGenerate
deriving DecidableEq

/-- Outcomes of the streamed answer call of lines 248-261, read by the
same line loop as extract: requestError (httpx.RequestError) and
lineDecodeError (json.JSONDecodeError on a streamed line) are caught by
the except tuple at line 263; httpStatusError is the uncaught
httpx.HTTPStatusError raised by response.raise_for_status() at line 251
on a non-2xx reply; a line decoding to a non-dict (or with a non-string
response value) raises an uncaught TypeError or AttributeError at lines
256-258; text s is the assembled answer. -/
inductive StreamRaw where
  | requestError
  | lineDecodeError
  | lineTypeError
  | httpStatusError
  | text (s : String)

/-- The collection.query call of lines 220-224: ChromaDB returns up to
n_results stored entries among those whose metadata matches the where
filter meeting_id = mid; which matching entries, and their order, is the
external nearest-neighbour behaviour, modelled by the rank function. -/
def collectionQuery (store : List VRecord) (rank : List VRecord → List VRecord)
    (mid : Int) (k : Nat) : List String :=
  ((rank (store.filter (fun r => r.meeting_id == mid))).take k).map (fun r => r.document)

/-- Outcome of the _get_embedding call for the query (lines 180-189):
value e on success; caughtNone when the except clause at line 187 caught
httpx.RequestError or KeyError and the function returned None; raised e
when the call raised an exception that the line-187 tuple does not
catch, namely httpx.HTTPStatusError from response.raise_for_status() at
line 185 and json.JSONDecodeError from response.json() at line 186. -/
inductive EmbedOutcome where
  | value (e : List Int)
  | caughtNone
  | raised (e : PyErr)

/-- Environment of one search call: the outcome of embedding the query,
the collection state, the external ranking, and the streamed answer
outcome. -/
structure SearchEnv where
  embedQuery : EmbedOutcome
  store : List VRecord
  rank : List VRecord → List VRecord
  llm : StreamRaw

/-- Python falsiness of the returned query embedding at line 217 (if not
query_embedding): the caught-failure None return, or an empty list. -/
def embeddingFalsy : EmbedOutcome → Bool
  | .caughtNone => true
  | .value [] => true
  | _ => false

/-- The retrieved context documents of lines 220-225. -/
def searchContext (env : SearchEnv) (meeting_id : Int) (n_results : Nat) : List String :=
  collectionQuery env.store env.rank meeting_id n_results

set_option linter.unusedVariables false in
/-- VectorStoreService.search (lines 209-265), returning the result (or
the uncaught exception) together with the trace of external calls made.
The retrieval section of lines 216-228 runs outside any try, so an
exception raised inside _get_embedding propagates out of search. The
query text itself only flows into the generation prompt (line 240),
which the streamed outcome already accounts for. The source declares a
default n_results=3; its caller uses the default. -/
def search (env : SearchEnv) (meeting_id : Int) (query : String) (n_results : Nat) :
    Except PyErr String × List Effect :=
  match env.embedQuery with
  | .raised e => (.error e, [.embedCall])
  | .caughtNone => (.ok "Could not process your query.", [.embedCall])
  | .value [] => (.ok "Could not process your query.", [.embedCall])
  | .value (x :: xs) =>
    let context_chunks := searchContext env meeting_id n_results
    if context_chunks.isEmpty then
      (.ok "I couldn\x27t find any information related to your query in this meeting\x27s transcript.",
        [.embedCall, .indexQuery])
    else
      match env.llm with
      | .requestError =>
        (.ok "There was an error generating an answer.", [.embedCall, .indexQuery, .llmGenerate])
      | .lineDecodeError =>
        (.ok "There was an error generating an answer.", [.embedCall, .indexQuery, .llmGenerate])
      | .lineTypeError => (.error .typeError, [.embedCall, .indexQuery, .llmGenerate])
      | .httpStatusError => (.error .httpStatusError, [.embedCall, .indexQuery, .llmGenerate])
      | .text s => (.ok s, [.embedCall, .indexQuery, .llmGenerate])

/-! ## AIPipeline.run (lines 277-309) as an event trace

The SQL persistence collaborator (crud.py) is external and assumed to
honour its contract: update_status, update_transcript, update_insights
and the session factory succeed. The run is then a straight-line program
whose branch points are the outcomes of transcription, extraction and
indexing; it is modelled as the ordered list of its observable actions. -/

/-- Observable actions of one pipeline run. -/
inductive Event where
  | statusSet (status : String)
  | phaseStart (phase : String)
  | transcriptSaved
  | insightsSaved
  | fileDeleted
  | dbClosed
deriving DecidableEq

/-- Environment of one pipeline run: the meeting identifier, the outcome
of the transcription phase (whisper and pydub are external; any failure
inside the phase surfaces as one exception), the streamed insight
response, the per-chunk embedding outcomes, and whether the uploaded file
still exists when the finally block runs (line 307 guards the deletion
with os.path.exists). -/
structure PipelineEnv where
  meetingId : Int
  transcribeResult : Except PyErr String
  llm : LLMResponse
  embed : String → Option (List Int)
  fileExists : Bool

/-- AIPipeline.run: each crud.update_status call persists synchronously
before the following statement executes; any exception from a phase jumps
to the except clause, which persists failed; the finally block deletes
the uploaded file when it exists and closes the session on every path. -/
def run (env : PipelineEnv) : List Event :=
  let tryPart :=
    Event.statusSet "transcribing" :: Event.phaseStart "transcribe" ::
    match env.transcribeResult with
    | .error _ => [Event.statusSet "failed"]
    | .ok transcript =>
      Event.transcriptSaved :: Event.statusSet "analyzing" :: Event.phaseStart "extract" ::
      match extract env.llm transcript with
      | .error _ => [Event.statusSet "failed"]
      | .ok _ =>
        Event.insightsSaved :: Event.phaseStart "index" ::
        match add_transcript env.embed [] env.meetingId transcript with
        | .error _ => [Event.statusSet "failed"]
        | .ok _ => [Event.statusSet "completed"]
  tryPart ++ (if env.fileExists then [Event.fileDeleted] else []) ++ [Event.dbClosed]

/-- The persisted status labels of a run, in write order. -/
def statusTrace (env : PipelineEnv) : List String :=
  (run env).filterMap (fun e => match e with | .statusSet s => some s | _ => none)

/-- Position of each status label in the pipeline state machine; the
meeting is created with status processing before the run starts
(crud.create, main.py upload route). -/
def statusRank : String → Nat
  | "processing" => 0
  | "transcribing" => 1
  | "analyzing" => 2
  | "completed" => 3
  | "failed" => 4
  | _ => 5

/-! ## TranscriptionService.transcribe (lines 78-92)

Whisper is external: ts is the decoded text of each audio chunk, in chunk
submission order (the task list of lines 86-89 is built in chunk order).
The worker pool finishes tasks in an arbitrary completion schedule;
asyncio.gather places each result in the slot of its task index and
returns the slots in task order. The schedule is the order parameter:
the list of task indices in completion order. -/

/-- Result slots after all completion events: each event stores the text
of its own task index into that slot. -/
def fillSlots (ts : List String) (order : List Nat) : List (Option String) :=
  order.foldl (fun slots i => slots.set i ts[i]?) (List.replicate ts.length none)

/-- TranscriptionService.transcribe: the gathered per-chunk texts joined
by single spaces (line 92), under completion schedule order. -/
def transcribe (ts : List String) (order : List Nat) : String :=
  " ".intercalate ((fillSlots ts order).map (fun r => r.getD ""))

theorem foldl_set_getElem (ts : List String) (order : List Nat) (j : Nat) :
    ∀ slots : List (Option String), slots.length = ts.length →
      (order.foldl (fun s i => s.set i ts[i]?) slots)[j]? =
        if j ∈ order ∧ j < ts.length then some ts[j]? else slots[j]? := by
  induction order with
  | nil =>
    intro slots _
    simp
  | cons i rest ih =>
    intro slots hlen
    rw [List.foldl_cons, ih _ (by simp [hlen]), List.getElem?_set]
    by_cases hj : j ∈ rest ∧ j < ts.length
    · rw [if_pos hj, if_pos ⟨List.mem_cons_of_mem i hj.1, hj.2⟩]
    · rw [if_neg hj]
      by_cases hji : i = j
      · subst hji
        by_cases hlt : i < ts.length
        · rw [if_pos rfl, if_pos (by omega : i < slots.length),
            if_pos ⟨List.mem_cons_self i rest, hlt⟩]
        · rw [if_pos rfl, if_neg (by omega : ¬ i < slots.length),
            if_neg (fun hc => hlt hc.2), List.getElem?_eq_none (by omega)]
      · rw [if_neg hji,
          if_neg (fun hc => hj ⟨(List.mem_cons.mp hc.1).resolve_left
            (fun he => hji he.symm), hc.2⟩)]

/-- C5: whenever every task index completes (in any order), the joined
transcript is the per-chunk texts in original submission order separated
by single spaces, independent of the completion schedule. -/
theorem transcribe_preserves_order (ts : List String) (order : List Nat)
    (h : ∀ j, j < ts.length → j ∈ order) :
    transcribe ts order = " ".intercalate ts := by
  have hs : fillSlots ts order = ts.map some := by
    apply List.ext_getElem?
    intro j
    rw [fillSlots, foldl_set_getElem ts order j _ (by simp)]
    by_cases hj : j < ts.length
    · rw [if_pos ⟨h j hj, hj⟩, List.getElem?_map,
        List.getElem?_eq_some_iff.mpr ⟨hj, rfl⟩]
      rfl
    · rw [if_neg (fun hc => hj hc.2),
        List.getElem?_eq_none (by simp only [List.length_replicate]; omega),
        List.getElem?_eq_none (by simp only [List.length_map]; omega)]
  have hmap : ∀ l : List String, (l.map some).map (fun r => r.getD "") = l := by
    intro l
    induction l with
    | nil => rfl
    | cons x xs ih => simp [ih]
  rw [transcribe, hs, hmap]

/-- Witness for C5: three segments where segment 1 completes before
segment 0; the joined transcript is still in submission order. -/
theorem transcribe_preserves_order_witness :
    transcribe ["S0 text", "S1 text", "S2 text"] [1, 0, 2] =
      " ".intercalate ["S0 text", "S1 text", "S2 text"] :=
  transcribe_preserves_order ["S0 text", "S1 text", "S2 text"] [1, 0, 2] (by decide)

/-! ## Claim theorems about search -/

/-- C9: a search for meeting mid queries the collection through the hard
filter meeting_id = mid, so under the ChromaDB contract that query
results are drawn from the filtered set (rank returns elements of its
input), every document in the retrieved context belongs to a record
stored for mid: no record tagged with another meeting ever appears. -/
theorem search_scoping (env : SearchEnv) (mid : Int) (k : Nat)
    (hrank : ∀ l r, r ∈ env.rank l → r ∈ l) :
    ∀ d ∈ searchContext env mid k,
      ∃ r, r ∈ env.store ∧ r.meeting_id = mid ∧ r.document = d := by
  intro d hd
  simp only [searchContext, collectionQuery] at hd
  rcases List.mem_map.mp hd with ⟨r, hr, rfl⟩
  have hr2 : r ∈ env.rank (env.store.filter (fun s => s.meeting_id == mid)) :=
    List.Sublist.mem hr (List.take_sublist k _)
  have hr3 := hrank _ r hr2
  rcases List.mem_filter.mp hr3 with ⟨hstore, hmid⟩
  exact ⟨r, hstore, by simpa using hmid, rfl⟩

/-- Concrete two-meeting store with overlapping vocabulary. -/
def scopeStore : List VRecord :=
  [{ id := "1_0", document := "alpha budget", embedding := [1], meeting_id := 1 },
   { id := "2_0", document := "alpha budget", embedding := [2], meeting_id := 2 }]

/-- Concrete search environment over scopeStore with the identity
ranking. -/
def scopeEnv : SearchEnv :=
  { embedQuery := .value [5], store := scopeStore, rank := fun l => l, llm := .text "fine" }

/-- Witness for C9: on the concrete two-meeting store, the document
retrieved for meeting 1 comes from a record of meeting 1. -/
theorem search_scoping_witness :
    ∃ r, r ∈ scopeEnv.store ∧ r.meeting_id = 1 ∧ r.document = "alpha budget" :=
  search_scoping scopeEnv 1 3 (fun _ _ h => h) "alpha budget" (by decide)

/-- C6 (amended): search calls the embedder first; a falsy returned
query embedding (the None of a caught failure, or an empty list) returns
exactly the fixed string with neither an index query nor a model call;
an exception raised inside _get_embedding propagates out of search
before any index or model call; with a truthy embedding, an empty
retrieved context returns exactly the no-information sentinel without a
model call; a network failure (httpx.RequestError) or an undecodable
streamed line in the generation call yields the fixed apology; a
non-2xx generation reply raises an uncaught httpx.HTTPStatusError past
the except tuple; and search returns a string, never raising, exactly
when the embedding call did not raise and the generation stream neither
had a non-2xx status nor a line decoding to a non-object. -/
theorem search_amended (env : SearchEnv) (mid : Int) (q : String) (k : Nat) :
    (embeddingFalsy env.embedQuery = true →
      search env mid q k = (.ok "Could not process your query.", [.embedCall])) ∧
    (∀ e, env.embedQuery = .raised e →
      search env mid q k = (.error e, [.embedCall])) ∧
    ((∃ x xs, env.embedQuery = .value (x :: xs)) → searchContext env mid k = [] →
      search env mid q k =
        (.ok "I couldn\x27t find any information related to your query in this meeting\x27s transcript.",
          [.embedCall, .indexQuery])) ∧
    ((∃ x xs, env.embedQuery = .value (x :: xs)) → searchContext env mid k ≠ [] →
      (env.llm = .requestError ∨ env.llm = .lineDecodeError) →
      search env mid q k =
        (.ok "There was an error generating an answer.",
          [.embedCall, .indexQuery, .llmGenerate])) ∧
    ((∃ x xs, env.embedQuery = .value (x :: xs)) → searchContext env mid k ≠ [] →
      env.llm = .httpStatusError →
      search env mid q k = (.error .httpStatusError, [.embedCall, .indexQuery, .llmGenerate])) ∧
    ((∀ e, env.embedQuery ≠ .raised e) → env.llm ≠ .lineTypeError →
      env.llm ≠ .httpStatusError → (search env mid q k).1.isOk = true) := by
  refine ⟨?_, ?_, ?_, ?_, ?_, ?_⟩
  · intro hf
    cases heq : env.embedQuery with
    | caughtNone => simp [search, heq]
    | raised e =>
      rw [heq] at hf
      simp [embeddingFalsy] at hf
    | value l =>
      cases l with
      | nil => simp [search, heq]
      | cons x xs =>
        rw [heq] at hf
        simp [embeddingFalsy] at hf
  · intro e he
    simp [search, he]
  · rintro ⟨x, xs, hv⟩ hctx
    simp [search, hv, hctx]
  · rintro ⟨x, xs, hv⟩ hctx hllm
    rcases hllm with h | h <;>
      simp [search, hv, hctx, h, List.isEmpty_iff]
  · rintro ⟨x, xs, hv⟩ hctx hllm
    simp [search, hv, hctx, hllm, List.isEmpty_iff]
  · intro hnr hlt hhs
    cases heq : env.embedQuery with
    | raised e => exact absurd heq (hnr e)
    | caughtNone => simp [search, heq, Except.isOk, Except.toBool]
    | value l =>
      cases l with
      | nil => simp [search, heq, Except.isOk, Except.toBool]
      | cons x xs =>
        by_cases hctx : searchContext env mid k = []
        · simp [search, heq, hctx, Except.isOk, Except.toBool]
        · cases hl : env.llm with
          | requestError =>
            simp [search, heq, hctx, hl, List.isEmpty_iff, Except.isOk, Except.toBool]
          | lineDecodeError =>
            simp [search, heq, hctx, hl, List.isEmpty_iff, Except.isOk, Except.toBool]
          | lineTypeError => exact absurd hl hlt
          | httpStatusError => exact absurd hl hhs
          | text s =>
            simp [search, heq, hctx, hl, List.isEmpty_iff, Except.isOk, Except.toBool]

/-- Witness for C6 (amended) at a concrete environment: a caught query
embedding failure yields the fixed string and only the embedding call. -/
theorem search_amended_witness :
    search { embedQuery := .caughtNone, store := [], rank := fun l => l, llm := .text "x" }
        1 "q" 3 =
      (.ok "Could not process your query.", [.embedCall]) :=
  (search_amended { embedQuery := .caughtNone, store := [], rank := fun l => l, llm := .text "x" }
    1 "q" 3).1 rfl

/-- Concrete environment whose streamed answer contains a line that
decodes to valid JSON which is not an object. -/
def badStreamEnv : SearchEnv :=
  { embedQuery := .value [5], store := scopeStore, rank := fun l => l, llm := .lineTypeError }

/-- Concrete environment whose generation reply has a non-2xx status. -/
def badStatusEnv : SearchEnv :=
  { embedQuery := .value [5], store := scopeStore, rank := fun l => l, llm := .httpStatusError }

/-- Concrete environment whose query-embedding reply body is not valid
JSON, so response.json() raises inside _get_embedding. -/
def badEmbedEnv : SearchEnv :=
  { embedQuery := .raised .jsonDecodeError, store := scopeStore, rank := fun l => l,
    llm := .text "fine" }

/-- C6 counterexample: search can raise. A streamed answer line decoding
to a non-object makes chunk.get at line 258 raise TypeError; a non-2xx
generation reply raises HTTPStatusError at line 251, which the except
tuple at line 263 does not catch; and an undecodable query-embedding
reply raises JSONDecodeError inside _get_embedding, which the try-less
retrieval section of lines 216-228 propagates. -/
theorem search_raises_counterexample :
    (search badStreamEnv 1 "q" 3).1 = .error .typeError ∧
    (search badStatusEnv 1 "q" 3).1 = .error .httpStatusError ∧
    (search badEmbedEnv 1 "q" 3).1 = .error .jsonDecodeError ∧
    (search badStreamEnv 1 "q" 3).1.isOk = false := by
  exact ⟨rfl, rfl, rfl, rfl⟩

/-! ## Claim theorems about add_transcript and the pipeline -/

/-- Embedding outcome for the C3 failing input: chunk texts of at least
100 characters embed successfully, shorter ones fail. T300 has two
chunks, of 599 and 99 characters. -/
def embedPartial : String → Option (List Int) :=
  fun c => if 100 ≤ c.length then some [1] else none

set_option maxRecDepth 20000 in
/-- C3 at the failing input (code bug): on a 300-word transcript whose
first chunk embeds and whose second chunk fails, line 203 subscripts
embeddings[1] into the single-element filtered embeddings list and
raises IndexError, so a partial embedding failure aborts indexing
instead of silently dropping the failed chunk. The other clauses of the
claim hold: an empty transcript and an all-chunks-fail transcript leave
the store untouched with no error, and with no failures every chunk is
stored with its embedding, tagged with the meeting id, under identifiers
meetingId_index. -/
theorem add_transcript_partial_failure_bug :
    add_transcript embedPartial [] 7 T300 = .error .indexError ∧
    add_transcript (fun _ => none) [] 7 T300 = .ok [] ∧
    add_transcript (fun _ => none) [] 7 "" = .ok [] ∧
    add_transcript (fun _ => some [1]) [] 7 "a b" =
      .ok [{ id := "7_0", document := "a b", embedding := [1], meeting_id := 7 }] := by
  exact ⟨rfl, rfl, rfl, rfl⟩

/-- Pipeline environment for the C2 counterexample: transcription
succeeds, the model response parses but its keywords list holds a number
(and every other insight field is missing). -/
def badInsightsEnv : PipelineEnv :=
  { meetingId := 1, transcribeResult := .ok "a",
    llm := .value (.obj [("keywords", .arr [.num 1])]),
    embed := fun _ => some [1], fileExists := true }

/-- C2 counterexample: transcription succeeded and the model response
cannot be turned into insights, yet extract raises AttributeError (from
keyword.lower() on a non-string, line 130) instead of returning the
sentinel, and the run ends failed, not completed. -/
theorem extract_recovery_counterexample :
    badInsightsEnv.transcribeResult = .ok "a" ∧
    extract badInsightsEnv.llm "a" = .error .attributeError ∧
    (statusTrace badInsightsEnv).getLast? = some "failed" := by
  exact ⟨rfl, rfl, rfl⟩

/-- C2 (amended): a network failure or a JSON decode failure of the
streamed response (a line or the assembled text) is recovered locally:
extract returns exactly the sentinel insights and raises nothing; and
when transcription succeeded and the indexing step raised no error, the
run reaches completed. (A response that parses to a non-container value
or to keywords holding non-strings instead raises an uncaught error and
fails the run, and a parsed response with missing fields is returned
as-is, not replaced by the sentinel.) -/
theorem extract_recovery_amended (t : String) (env : PipelineEnv)
    (hresp : env.llm = .requestError ∨ env.llm = .lineDecodeError ∨
      env.llm = .finalDecodeError)
    (htr : env.transcribeResult = .ok t)
    (hidx : ∃ s, add_transcript env.embed [] env.meetingId t = .ok s) :
    extract env.llm t = .ok errorInsights ∧
    (statusTrace env).getLast? = some "completed" := by
  have hex : extract env.llm t = .ok errorInsights := by
    rcases hresp with h | h | h <;> rw [h] <;> rfl
  refine ⟨hex, ?_⟩
  rcases hidx with ⟨s, hs⟩
  cases hf : env.fileExists <;>
    simp [statusTrace, run, htr, hex, hs, hf]

/-- Pipeline environment where transcription succeeds, the stream fails
at the network level, and every embedding succeeds. -/
def goodRecoveryEnv : PipelineEnv :=
  { meetingId := 1, transcribeResult := .ok "hello world", llm := .requestError,
    embed := fun _ => some [1], fileExists := true }

/-- Witness for C2 (amended) at a concrete environment. -/
theorem extract_recovery_amended_witness :
    extract goodRecoveryEnv.llm "hello world" = .ok errorInsights ∧
    (statusTrace goodRecoveryEnv).getLast? = some "completed" :=
  extract_recovery_amended "hello world" goodRecoveryEnv (Or.inl rfl) rfl ⟨_, rfl⟩

/-- C7: the persisted status sequence of every run, starting from the
processing status written at upload, is strictly increasing in the state
machine processing → transcribing → analyzing → completed/failed (no
backward transition, no repetition), ends at completed or at failed,
both terminal; and each label is persisted before its phase starts:
transcribing before transcription, analyzing before extraction and
before indexing (which runs under the analyzing label). -/
theorem pipeline_status_machine (env : PipelineEnv) :
    List.Pairwise (fun a b => statusRank a < statusRank b)
      ("processing" :: statusTrace env) ∧
    ((statusTrace env).getLast? = some "completed" ∨
      (statusTrace env).getLast? = some "failed") ∧
    ("completed" ∈ statusTrace env → (statusTrace env).getLast? = some "completed") ∧
    ("failed" ∈ statusTrace env → (statusTrace env).getLast? = some "failed") ∧
    List.Sublist [Event.statusSet "transcribing", Event.phaseStart "transcribe"] (run env) ∧
    (Event.phaseStart "extract" ∈ run env →
      List.Sublist [Event.statusSet "analyzing", Event.phaseStart "extract"] (run env)) ∧
    (Event.phaseStart "index" ∈ run env →
      List.Sublist [Event.statusSet "analyzing", Event.phaseStart "index"] (run env)) := by
  rcases htr : env.transcribeResult with e | t
  · cases hf : env.fileExists <;>
      · simp only [run, statusTrace, htr, hf]
        decide
  · rcases hex : extract env.llm t with e2 | v
    · cases hf : env.fileExists <;>
        · simp only [run, statusTrace, htr, hex, hf]
          decide
    · rcases hadd : add_transcript env.embed [] env.meetingId t with e3 | s
      · cases hf : env.fileExists <;>
          · simp only [run, statusTrace, htr, hex, hadd, hf]
            decide
      · cases hf : env.fileExists <;>
          · simp only [run, statusTrace, htr, hex, hadd, hf]
            decide

/-- Witness for C7 at a concrete environment, discharging the
phase-ordering hypothesis. -/
theorem pipeline_status_machine_witness :
    List.Sublist [Event.statusSet "analyzing", Event.phaseStart "extract"]
      (run goodRecoveryEnv) :=
  (pipeline_status_machine goodRecoveryEnv).2.2.2.2.2.1 (by decide)

/-- C8: the finally block of lines 306-309 runs on success and failure
alike, so with the uploaded file present at cleanup time the run deletes
it exactly once on every path, as its second-to-last action (just before
the session close), whether the terminal status is completed or failed. -/
theorem file_cleanup_once (env : PipelineEnv) (h : env.fileExists = true) :
    (run env).count Event.fileDeleted = 1 ∧
    (run env)[(run env).length - 2]? = some Event.fileDeleted ∧
    ((statusTrace env).getLast? = some "completed" ∨
      (statusTrace env).getLast? = some "failed") := by
  rcases htr : env.transcribeResult with e | t
  · simp only [run, statusTrace, htr, h]
    decide
  · rcases hex : extract env.llm t with e2 | v
    · simp only [run, statusTrace, htr, hex, h]
      decide
    · rcases hadd : add_transcript env.embed [] env.meetingId t with e3 | s
      · simp only [run, statusTrace, htr, hex, hadd, h]
        decide
      · simp only [run, statusTrace, htr, hex, hadd, h]
        decide

/-- Witness for C8 at a concrete environment with the file present. -/
theorem file_cleanup_once_witness :
    (run goodRecoveryEnv).count Event.fileDeleted = 1 ∧
    (run goodRecoveryEnv)[(run goodRecoveryEnv).length - 2]? =
      some Event.fileDeleted ∧
    ((statusTrace goodRecoveryEnv).getLast? = some "completed" ∨
      (statusTrace goodRecoveryEnv).getLast? = some "failed") :=
  file_cleanup_once goodRecoveryEnv rfl

/-! ## Claim theorems about the keyword annotation path (C10) -/

/-- The keywords entry of a parsed JSON object, as the dict lookup sees
it. -/
def keywordsEntry (fields : List (String × JValue)) : Option JValue :=
  ((fields.filter (fun f => f.1 == "keywords")).getLast?).map (fun f => f.2)

theorem except_bind_ok {α β : Type} (a : α) (f : α → Except PyErr β) :
    (Except.ok a >>= f) = f a := rfl

theorem except_pure_eq {α : Type} (a : α) : (pure a : Except PyErr α) = Except.ok a := rfl

/-- C10 (amended): when the parsed model response is a JSON object whose
keywords entry is absent or not a list, extract returns the parsed
object unchanged: its keywords are not counted, not sorted, and not
truncated to 7. (Stated over every parsed response the claim fails: a
parsed non-container value makes the membership test of line 160 raise
an uncaught TypeError instead of being returned unchanged.) -/
theorem extract_passthrough_amended (fields : List (String × JValue)) (t : String)
    (h : ∀ w, keywordsEntry fields = some w → w.isArr = false) :
    extract (.value (.obj fields)) t = .ok (.obj fields) := by
  by_cases hc : fields.any (fun f => f.1 == "keywords") = true
  · have hne : fields.filter (fun f => f.1 == "keywords") ≠ [] := by
      rcases List.any_eq_true.mp hc with ⟨f, hf, hfk⟩
      exact List.ne_nil_of_mem (List.mem_filter.mpr ⟨hf, hfk⟩)
    obtain ⟨p, hp⟩ := Option.isSome_iff_exists.mp (List.getLast?_isSome.mpr hne)
    have hw := h p.2 (by simp [keywordsEntry, hp])
    cases hp2 : p.2 with
    | arr es =>
      rw [hp2] at hw
      exact absurd hw (by simp [JValue.isArr])
    | null => simp [extract, annotateInsights, pyContains, pySubscript, hc, hp, hp2, except_bind_ok, except_pure_eq]
    | bool b => simp [extract, annotateInsights, pyContains, pySubscript, hc, hp, hp2, except_bind_ok, except_pure_eq]
    | num n => simp [extract, annotateInsights, pyContains, pySubscript, hc, hp, hp2, except_bind_ok, except_pure_eq]
    | str s => simp [extract, annotateInsights, pyContains, pySubscript, hc, hp, hp2, except_bind_ok, except_pure_eq]
    | obj fs => simp [extract, annotateInsights, pyContains, pySubscript, hc, hp, hp2, except_bind_ok, except_pure_eq]
  · simp only [Bool.not_eq_true] at hc
    simp [extract, annotateInsights, pyContains, hc, except_bind_ok, except_pure_eq]

/-- Witness for C10 (amended): an object with only a summary field passes
through extract unchanged. -/
theorem extract_passthrough_amended_witness :
    extract (.value (.obj [("summary", .str "hi")])) "t" =
      .ok (.obj [("summary", .str "hi")]) :=
  extract_passthrough_amended [("summary", .str "hi")] "t"
    (fun w hw => by simp [keywordsEntry] at hw)

/-- C10 counterexample: a parsed response that is a number is not
returned unchanged: the membership test keywords in insights raises a
TypeError that the except clause does not catch, so extract raises. -/
theorem extract_passthrough_counterexample :
    extract (.value (.num 5)) "" = .error .typeError ∧
    (Except.error PyErr.typeError : Except PyErr JValue) ≠ .ok (.num 5) :=
  ⟨rfl, fun hcontr => Except.noConfusion hcontr⟩

end MeetingInsights
